import Mathlib

/-!
Verification of the BrainOS backend mesh pipeline (src/backend/app.py).

The embedding is shallow: numpy float arithmetic is modelled by exact
rational arithmetic, numpy arrays of 3D rows by lists of rational triples,
and the mutable processing cache by explicit state passing.  Each
definition below is translated from the named Python function in
src/backend/app.py; comments cite the source function.
-/

/-! ### 3D points and elementwise numpy operations -/

/-- A numpy row `[x, y, z]` as a triple of rationals. -/
abbrev Q3 := ℚ × ℚ × ℚ

/-- Elementwise addition of 3D rows. -/
def vadd (a b : Q3) : Q3 := (a.1 + b.1, a.2.1 + b.2.1, a.2.2 + b.2.2)

/-- Elementwise subtraction of 3D rows. -/
def vsub (a b : Q3) : Q3 := (a.1 - b.1, a.2.1 - b.2.1, a.2.2 - b.2.2)

/-- Elementwise multiplication of 3D rows (numpy broadcasting of `*`). -/
def vmul (a b : Q3) : Q3 := (a.1 * b.1, a.2.1 * b.2.1, a.2.2 * b.2.2)

/-- Scalar multiplication of a 3D row. -/
def smul (s : ℚ) (a : Q3) : Q3 := (s * a.1, s * a.2.1, s * a.2.2)

/-- Elementwise division of a 3D row by a scalar. -/
def vdiv (a : Q3) (s : ℚ) : Q3 := (a.1 / s, a.2.1 / s, a.2.2 / s)

/-! ### Per-axis aggregates over a list of rows

`np.min(vertices, axis=0)`, `np.max(vertices, axis=0)` and
`np.mean(vertices, axis=0)` over an `(n, 3)` array. -/

/-- Maximum of a nonempty list of rationals (`np.max`); `0` on `[]`. -/
def foldMax : List ℚ → ℚ
  | [] => 0
  | [x] => x
  | x :: y :: t => max x (foldMax (y :: t))

/-- Minimum of a nonempty list of rationals (`np.min`); `0` on `[]`. -/
def foldMin : List ℚ → ℚ
  | [] => 0
  | [x] => x
  | x :: y :: t => min x (foldMin (y :: t))

/-- Arithmetic mean of a list of rationals (`np.mean`). -/
def meanQ (l : List ℚ) : ℚ := l.sum / l.length

/-- The x components of a list of rows. -/
def pxs (l : List Q3) : List ℚ := l.map (fun p => p.1)

/-- The y components of a list of rows. -/
def pys (l : List Q3) : List ℚ := l.map (fun p => p.2.1)

/-- The z components of a list of rows. -/
def pzs (l : List Q3) : List ℚ := l.map (fun p => p.2.2)

/-- `np.min(vertices, axis=0)`. -/
def minCoords (l : List Q3) : Q3 := (foldMin (pxs l), foldMin (pys l), foldMin (pzs l))

/-- `np.max(vertices, axis=0)`. -/
def maxCoords (l : List Q3) : Q3 := (foldMax (pxs l), foldMax (pys l), foldMax (pzs l))

/-- `np.mean(vertices, axis=0)`: the centroid of a list of rows. -/
def centroidOf (l : List Q3) : Q3 := (meanQ (pxs l), meanQ (pys l), meanQ (pzs l))

/-- `np.max` of a 3-vector (largest bounding box dimension). -/
def maxDim (s : Q3) : ℚ := max s.1 (max s.2.1 s.2.2)

/-! ### Transform records

`transform_info` dictionaries produced by `MeshNormalizationMethods` and
consumed verbatim by `apply_cartesian_transform_to_coordinates` and
`apply_spherical_transform_to_coordinates`. -/

/-- The `scale_factor` entry: a scalar for uniform scaling or a
3-vector for per-axis scaling (cartesian only). -/
inductive Scale where
  | uniform (s : ℚ)
  | perAxis (s : Q3)
deriving DecidableEq

/-- Applying a scale to a row: `isinstance(scale_factor, (int, float))`
dispatch in `apply_cartesian_transform_to_coordinates`. -/
def Scale.apply : Scale → Q3 → Q3
  | .uniform s, p => smul s p
  | .perAxis s, p => vmul s p

/-- The `transform_info` dictionary built by
`MeshNormalizationMethods.cartesian_normalization`. -/
structure CartInfo where
  original_centroid : Q3
  original_size : Q3
  scale_factor : Scale
  final_centroid : Q3
  final_size : Q3
  target_size : ℚ
  centered_at_origin : Bool
  aspect_ratio_preserved : Bool
deriving DecidableEq

/-- The point set centering mode of `spherical_normalization`. -/
inductive CenterMode where
  | centroid
  | geometric_center
  | mass_center
deriving DecidableEq

/-- The `transform_info` dictionary built by
`MeshNormalizationMethods.spherical_normalization`.
`original_max_distance` is the float `np.max(distances)`; since Euclidean
norms are irrational in general it is carried as a parameter of the
embedding, constrained in theorems by `d * d = maxDistanceSq`. -/
structure SphInfo where
  original_center : Q3
  original_max_distance : ℚ
  scale_factor : ℚ
  final_center : Q3
  target_radius : ℚ
  center_mode : CenterMode
  normalized_to_unit_sphere : Bool
deriving DecidableEq

/-- `apply_cartesian_transform_to_coordinates`, restricted to one row:
center at `original_centroid`, apply the scale, translate to
`final_centroid`. -/
def applyCartesianPoint (t : CartInfo) (p : Q3) : Q3 :=
  let centered := vsub p t.original_centroid
  let scaled := Scale.apply t.scale_factor centered
  vadd scaled t.final_centroid

/-- `apply_cartesian_transform_to_coordinates` (src/backend/app.py lines
1008-1044): the vectorized numpy steps become a pointwise map. -/
def apply_cartesian_transform_to_coordinates (coordinates : List Q3) (t : CartInfo) : List Q3 :=
  coordinates.map (applyCartesianPoint t)

/-- `apply_spherical_transform_to_coordinates`, restricted to one row. -/
def applySphericalPoint (t : SphInfo) (p : Q3) : Q3 :=
  let centered := vsub p t.original_center
  let scaled := smul t.scale_factor centered
  vadd scaled t.final_center

/-- `apply_spherical_transform_to_coordinates` (src/backend/app.py lines
1046-1074). -/
def apply_spherical_transform_to_coordinates (coordinates : List Q3) (t : SphInfo) : List Q3 :=
  coordinates.map (applySphericalPoint t)

/-- The tagged union of the two transform record kinds; the `method`
string of `transform_lesion_coordinates` selects the branch. -/
inductive TransformRecord where
  | cartesian (info : CartInfo)
  | spherical (info : SphInfo)
deriving DecidableEq

/-- The reference center field of a record. -/
def TransformRecord.referenceCenter : TransformRecord → Q3
  | .cartesian t => t.original_centroid
  | .spherical t => t.original_center

/-- The scale field of a record (spherical records are always uniform). -/
def TransformRecord.scaleOf : TransformRecord → Scale
  | .cartesian t => t.scale_factor
  | .spherical t => .uniform t.scale_factor

/-- The destination center field of a record. -/
def TransformRecord.destinationCenter : TransformRecord → Q3
  | .cartesian t => t.final_centroid
  | .spherical t => t.final_center

/-- Replaying a record on one row: the dispatch of
`transform_lesion_coordinates` on `method`. -/
def replayTransform : TransformRecord → Q3 → Q3
  | .cartesian t, p => applyCartesianPoint t p
  | .spherical t, p => applySphericalPoint t p

/-- The cartesian record of the worked example in the specification:
`reference_center = (25, 10, 5)`, uniform `scale = 2`,
`destination_center = (0, 0, 0)`. -/
def exampleCartInfo : CartInfo :=
  { original_centroid := (25, 10, 5)
    original_size := (50, 20, 10)
    scale_factor := .uniform 2
    final_centroid := (0, 0, 0)
    final_size := (100, 40, 20)
    target_size := 100
    centered_at_origin := true
    aspect_ratio_preserved := true }

/-- C1: replaying a transform record (cartesian or spherical) on a row
`p` yields exactly `(p - reference_center) * scale + destination_center`,
elementwise when the scale is per-axis; the replay is a pure function of
`p` and the record fields, applied pointwise over any coordinate list.
In particular a companion voxel at index `(2,3,4)` with spacing
`(1,1,1)` maps to the physical point `(2,3,4)` and transforms under the
example record to `(-46,-14,-2)`. -/
theorem replay_record_formula :
    (∀ (r : TransformRecord) (p : Q3),
        replayTransform r p =
          vadd (Scale.apply (TransformRecord.scaleOf r) (vsub p (TransformRecord.referenceCenter r)))
            (TransformRecord.destinationCenter r))
    ∧ (∀ (t : CartInfo) (coordinates : List Q3),
        apply_cartesian_transform_to_coordinates coordinates t =
          coordinates.map (fun p => replayTransform (.cartesian t) p))
    ∧ (∀ (t : SphInfo) (coordinates : List Q3),
        apply_spherical_transform_to_coordinates coordinates t =
          coordinates.map (fun p => replayTransform (.spherical t) p))
    ∧ vmul (2, 3, 4) (1, 1, 1) = ((2 : ℚ), (3 : ℚ), (4 : ℚ))
    ∧ replayTransform (.cartesian exampleCartInfo) (vmul (2, 3, 4) (1, 1, 1)) =
        ((-46 : ℚ), (-14 : ℚ), (-2 : ℚ)) := by
  refine ⟨fun r p => ?_, fun t coordinates => rfl, fun t coordinates => rfl, ?_, ?_⟩
  · cases r <;> rfl
  · norm_num [vmul]
  · norm_num [vmul, exampleCartInfo, replayTransform, applyCartesianPoint, Scale.apply,
      vsub, vadd, smul]

/-! ### Lemmas on per-axis aggregates -/

/-- Distributing a monotone affine map over `max`. -/
lemma mul_sub_max (s a x m : ℚ) (hs : 0 ≤ s) :
    s * (max x m - a) = max (s * (x - a)) (s * (m - a)) := by
  rcases le_total x m with h | h
  · rw [max_eq_right h, max_eq_right (by nlinarith)]
  · rw [max_eq_left h, max_eq_left (by nlinarith)]

/-- Distributing a monotone affine map over `min`. -/
lemma mul_sub_min (s a x m : ℚ) (hs : 0 ≤ s) :
    s * (min x m - a) = min (s * (x - a)) (s * (m - a)) := by
  rcases le_total x m with h | h
  · rw [min_eq_left h, min_eq_left (by nlinarith)]
  · rw [min_eq_right h, min_eq_right (by nlinarith)]

/-- `foldMax` commutes with a monotone affine map of the entries. -/
lemma foldMax_map_scale_sub (s a : ℚ) (hs : 0 ≤ s) :
    ∀ l : List ℚ, l ≠ [] →
      foldMax (l.map (fun x => s * (x - a))) = s * (foldMax l - a)
  | [], h => absurd rfl h
  | [x], _ => by simp [foldMax]
  | x :: y :: t, _ => by
    have ih := foldMax_map_scale_sub s a hs (y :: t) (by simp)
    simp only [List.map_cons] at ih ⊢
    show max (s * (x - a)) (foldMax ((fun x => s * (x - a)) y :: List.map (fun x => s * (x - a)) t))
        = s * (max x (foldMax (y :: t)) - a)
    rw [ih, mul_sub_max s a x (foldMax (y :: t)) hs]

/-- `foldMin` commutes with a monotone affine map of the entries. -/
lemma foldMin_map_scale_sub (s a : ℚ) (hs : 0 ≤ s) :
    ∀ l : List ℚ, l ≠ [] →
      foldMin (l.map (fun x => s * (x - a))) = s * (foldMin l - a)
  | [], h => absurd rfl h
  | [x], _ => by simp [foldMin]
  | x :: y :: t, _ => by
    have ih := foldMin_map_scale_sub s a hs (y :: t) (by simp)
    simp only [List.map_cons] at ih ⊢
    show min (s * (x - a)) (foldMin ((fun x => s * (x - a)) y :: List.map (fun x => s * (x - a)) t))
        = s * (min x (foldMin (y :: t)) - a)
    rw [ih, mul_sub_min s a x (foldMin (y :: t)) hs]

/-- The sum of a list under a monotone affine map of the entries. -/
lemma sum_map_scale_sub (s a : ℚ) (l : List ℚ) :
    (l.map (fun x => s * (x - a))).sum = s * l.sum - l.length * (s * a) := by
  induction l with
  | nil => simp
  | cons x t ih => simp [ih]; ring

/-- `meanQ` commutes with a monotone affine map of the entries. -/
lemma meanQ_map_scale_sub (s a : ℚ) (l : List ℚ) (h : l ≠ []) :
    meanQ (l.map (fun x => s * (x - a))) = s * (meanQ l - a) := by
  have hn : (l.length : ℚ) ≠ 0 := by
    exact_mod_cast fun hh => h (List.length_eq_zero.mp hh)
  simp only [meanQ, List.length_map, sum_map_scale_sub]
  field_simp
  ring

/-! ### Cartesian normalization (`MeshNormalizationMethods.cartesian_normalization`,
src/backend/app.py lines 206-254) -/

/-- `cartesian_normalization(vertices, target_size, center_at_origin,
preserve_aspect_ratio)`: center at the centroid, scale (uniformly by
`target_size / max(extent)` when the aspect ratio is preserved, else per
axis with a degenerate-axis guard), then optionally translate back to the
scaled centroid.  Returns the scaled vertices and the `transform_info`
dictionary. -/
def cartesian_normalization (vertices : List Q3) (target_size : ℚ)
    (center_at_origin : Bool) (preserve_aspect_ratio : Bool) : List Q3 × CartInfo :=
  let min_coords := minCoords vertices
  let max_coords := maxCoords vertices
  let current_size := vsub max_coords min_coords
  let centroid := centroidOf vertices
  let centered_vertices := vertices.map (fun v => vsub v centroid)
  let scale : Scale :=
    if preserve_aspect_ratio then
      Scale.uniform (if 0 < maxDim current_size then target_size / maxDim current_size else 1)
    else
      Scale.perAxis
        ((if current_size.1 = 0 then 1 else target_size / current_size.1),
         (if current_size.2.1 = 0 then 1 else target_size / current_size.2.1),
         (if current_size.2.2 = 0 then 1 else target_size / current_size.2.2))
  let scaled_vertices := centered_vertices.map (Scale.apply scale)
  let placed_vertices :=
    if center_at_origin then scaled_vertices
    else scaled_vertices.map (fun v => vadd v (Scale.apply scale centroid))
  (placed_vertices,
    { original_centroid := centroid
      original_size := current_size
      scale_factor := scale
      final_centroid := centroidOf placed_vertices
      final_size := vsub (maxCoords placed_vertices) (minCoords placed_vertices)
      target_size := target_size
      centered_at_origin := center_at_origin
      aspect_ratio_preserved := preserve_aspect_ratio })

/-- Unfolding of `cartesian_normalization` in the aspect-preserving,
center-at-origin configuration. -/
lemma cartesian_normalization_true_true (vs : List Q3) (ts : ℚ) :
    (cartesian_normalization vs ts true true).1 =
      vs.map (fun v =>
        Scale.apply
          (Scale.uniform
            (if 0 < maxDim (vsub (maxCoords vs) (minCoords vs)) then
              ts / maxDim (vsub (maxCoords vs) (minCoords vs)) else 1))
          (vsub v (centroidOf vs)))
    ∧ (cartesian_normalization vs ts true true).2.scale_factor =
        Scale.uniform
          (if 0 < maxDim (vsub (maxCoords vs) (minCoords vs)) then
            ts / maxDim (vsub (maxCoords vs) (minCoords vs)) else 1)
    ∧ (cartesian_normalization vs ts true true).2.final_centroid =
        centroidOf (cartesian_normalization vs ts true true).1 := by
  refine ⟨?_, rfl, rfl⟩
  simp only [cartesian_normalization, if_pos, List.map_map]
  rfl

/-- C2: for every nonempty physical-space vertex set with bounding box
extent `(50, 20, 10)` mm and centroid `(25, 10, 5)`, cartesian
normalization with `target_size = 100`, `preserve_aspect_ratio = true`,
`center_at_origin = true` records a uniform scale of `2`, yields a
vertex set whose largest bounding box dimension is exactly `100` mm, and
a final centroid of exactly `(0, 0, 0)` (exact rational arithmetic, so a
fortiori within the stated floating tolerance). -/
theorem cartesian_fit_roundtrip (vs : List Q3) (hne : vs ≠ [])
    (hext : vsub (maxCoords vs) (minCoords vs) = (50, 20, 10))
    (hcen : centroidOf vs = (25, 10, 5)) :
    (cartesian_normalization vs 100 true true).2.scale_factor = .uniform 2
    ∧ maxDim (vsub (maxCoords (cartesian_normalization vs 100 true true).1)
        (minCoords (cartesian_normalization vs 100 true true).1)) = 100
    ∧ centroidOf (cartesian_normalization vs 100 true true).1 = (0, 0, 0)
    ∧ (cartesian_normalization vs 100 true true).2.final_centroid = (0, 0, 0) := by
  obtain ⟨hlist, hscale, hfc⟩ := cartesian_normalization_true_true vs 100
  have hx : foldMax (pxs vs) - foldMin (pxs vs) = 50 := congrArg (fun p => p.1) hext
  have hy : foldMax (pys vs) - foldMin (pys vs) = 20 := congrArg (fun p => p.2.1) hext
  have hz : foldMax (pzs vs) - foldMin (pzs vs) = 10 := congrArg (fun p => p.2.2) hext
  have hmx : meanQ (pxs vs) = 25 := congrArg (fun p => p.1) hcen
  have hmy : meanQ (pys vs) = 10 := congrArg (fun p => p.2.1) hcen
  have hmz : meanQ (pzs vs) = 5 := congrArg (fun p => p.2.2) hcen
  have hdim : maxDim (vsub (maxCoords vs) (minCoords vs)) = 50 := by
    rw [hext]; norm_num [maxDim]
  have hsval : (if 0 < maxDim (vsub (maxCoords vs) (minCoords vs)) then
      (100 : ℚ) / maxDim (vsub (maxCoords vs) (minCoords vs)) else 1) = 2 := by
    rw [hdim]; norm_num
  rw [hsval] at hlist hscale
  rw [hcen] at hlist
  have hxe : pxs vs ≠ [] := by simpa [pxs] using hne
  have hye : pys vs ≠ [] := by simpa [pys] using hne
  have hze : pzs vs ≠ [] := by simpa [pzs] using hne
  have hpx : pxs ((cartesian_normalization vs 100 true true).1) =
      (pxs vs).map (fun x => 2 * (x - 25)) := by
    rw [hlist]; simp only [pxs, List.map_map]; rfl
  have hpy : pys ((cartesian_normalization vs 100 true true).1) =
      (pys vs).map (fun x => 2 * (x - 10)) := by
    rw [hlist]; simp only [pys, List.map_map]; rfl
  have hpz : pzs ((cartesian_normalization vs 100 true true).1) =
      (pzs vs).map (fun x => 2 * (x - 5)) := by
    rw [hlist]; simp only [pzs, List.map_map]; rfl
  have hbb : vsub (maxCoords (cartesian_normalization vs 100 true true).1)
      (minCoords (cartesian_normalization vs 100 true true).1) = ((100 : ℚ), (40 : ℚ), (20 : ℚ)) := by
    refine Prod.ext ?_ (Prod.ext ?_ ?_)
    · show foldMax (pxs ((cartesian_normalization vs 100 true true).1)) -
        foldMin (pxs ((cartesian_normalization vs 100 true true).1)) = 100
      rw [hpx, foldMax_map_scale_sub 2 25 (by norm_num) _ hxe,
        foldMin_map_scale_sub 2 25 (by norm_num) _ hxe]
      linarith [hx]
    · show foldMax (pys ((cartesian_normalization vs 100 true true).1)) -
        foldMin (pys ((cartesian_normalization vs 100 true true).1)) = 40
      rw [hpy, foldMax_map_scale_sub 2 10 (by norm_num) _ hye,
        foldMin_map_scale_sub 2 10 (by norm_num) _ hye]
      linarith [hy]
    · show foldMax (pzs ((cartesian_normalization vs 100 true true).1)) -
        foldMin (pzs ((cartesian_normalization vs 100 true true).1)) = 20
      rw [hpz, foldMax_map_scale_sub 2 5 (by norm_num) _ hze,
        foldMin_map_scale_sub 2 5 (by norm_num) _ hze]
      linarith [hz]
  have hcentroid : centroidOf (cartesian_normalization vs 100 true true).1 = (0, 0, 0) := by
    refine Prod.ext ?_ (Prod.ext ?_ ?_)
    · show meanQ (pxs ((cartesian_normalization vs 100 true true).1)) = 0
      rw [hpx, meanQ_map_scale_sub 2 25 _ hxe, hmx]; ring
    · show meanQ (pys ((cartesian_normalization vs 100 true true).1)) = 0
      rw [hpy, meanQ_map_scale_sub 2 10 _ hye, hmy]; ring
    · show meanQ (pzs ((cartesian_normalization vs 100 true true).1)) = 0
      rw [hpz, meanQ_map_scale_sub 2 5 _ hze, hmz]; ring
  refine ⟨hscale, ?_, hcentroid, ?_⟩
  · rw [hbb]; norm_num [maxDim]
  · rw [hfc, hcentroid]

/-- Witness for `cartesian_fit_roundtrip`: the concrete vertex set
`[(0,0,0), (50,20,10), (25,10,5)]` has extent `(50,20,10)` and centroid
`(25,10,5)`. -/
theorem cartesian_fit_roundtrip_witness :
    (cartesian_normalization [((0 : ℚ), (0 : ℚ), (0 : ℚ)), (50, 20, 10), (25, 10, 5)]
        100 true true).2.scale_factor = .uniform 2
    ∧ maxDim (vsub
        (maxCoords (cartesian_normalization [((0 : ℚ), (0 : ℚ), (0 : ℚ)), (50, 20, 10), (25, 10, 5)]
          100 true true).1)
        (minCoords (cartesian_normalization [((0 : ℚ), (0 : ℚ), (0 : ℚ)), (50, 20, 10), (25, 10, 5)]
          100 true true).1)) = 100
    ∧ centroidOf (cartesian_normalization [((0 : ℚ), (0 : ℚ), (0 : ℚ)), (50, 20, 10), (25, 10, 5)]
        100 true true).1 = (0, 0, 0)
    ∧ (cartesian_normalization [((0 : ℚ), (0 : ℚ), (0 : ℚ)), (50, 20, 10), (25, 10, 5)]
        100 true true).2.final_centroid = (0, 0, 0) :=
  cartesian_fit_roundtrip
    [((0 : ℚ), (0 : ℚ), (0 : ℚ)), (50, 20, 10), (25, 10, 5)]
    (by simp)
    (by norm_num [vsub, maxCoords, minCoords, pxs, pys, pzs, foldMax, foldMin, max_def, min_def])
    (by norm_num [centroidOf, meanQ, pxs, pys, pzs])

/-! ### Spherical normalization (`MeshNormalizationMethods.spherical_normalization`,
src/backend/app.py lines 257-311) -/

/-- Squared Euclidean norm of a row; `np.linalg.norm(v)` is its square
root. -/
def normSq (p : Q3) : ℚ := p.1 ^ 2 + p.2.1 ^ 2 + p.2.2 ^ 2

/-- The `center` selected by `center_mode` in `spherical_normalization`:
centroid (mean), geometric center (bounding box midpoint), mass center
(identical to centroid, no density weighting). -/
def sphericalCenter (vertices : List Q3) : CenterMode → Q3
  | .centroid => centroidOf vertices
  | .geometric_center => vdiv (vadd (minCoords vertices) (maxCoords vertices)) 2
  | .mass_center => centroidOf vertices

/-- `centered_vertices = vertices - center`. -/
def centeredSpherical (vertices : List Q3) (cm : CenterMode) : List Q3 :=
  vertices.map (fun v => vsub v (sphericalCenter vertices cm))

/-- The square of `max_distance = np.max(np.linalg.norm(centered, axis=1))`.
Since the square root is monotone, the max of the norms is the square
root of the max of the squared norms. -/
def maxDistanceSq (vertices : List Q3) (cm : CenterMode) : ℚ :=
  foldMax ((centeredSpherical vertices cm).map normSq)

/-- `spherical_normalization(vertices, target_radius, center_mode,
normalize_to_unit_sphere)`.  The float `max_distance` is a square root
and hence irrational in general; the embedding takes it as the explicit
argument `max_distance`, constrained in the theorems below by
`max_distance * max_distance = maxDistanceSq vertices center_mode` and
`0 ≤ max_distance`.  The three branches mirror the source: divide by
`max_distance` then multiply by `target_radius` when normalizing through
the unit sphere, scale directly by `target_radius / max_distance`
otherwise, and leave the centered vertices untouched when
`max_distance = 0`. -/
def sphericalScaledVertices (vertices : List Q3) (target_radius : ℚ) (cm : CenterMode)
    (normalize_to_unit_sphere : Bool) (max_distance : ℚ) : List Q3 :=
  if normalize_to_unit_sphere ∧ 0 < max_distance then
    ((centeredSpherical vertices cm).map (fun v => vdiv v max_distance)).map
      (fun v => smul target_radius v)
  else if 0 < max_distance then
    (centeredSpherical vertices cm).map (fun v => smul (target_radius / max_distance) v)
  else centeredSpherical vertices cm

/-- The pair returned by `spherical_normalization`: the scaled vertices
and the `transform_info` dictionary. -/
def spherical_normalization (vertices : List Q3) (target_radius : ℚ)
    (center_mode : CenterMode) (normalize_to_unit_sphere : Bool)
    (max_distance : ℚ) : List Q3 × SphInfo :=
  (sphericalScaledVertices vertices target_radius center_mode normalize_to_unit_sphere
      max_distance,
    { original_center := sphericalCenter vertices center_mode
      original_max_distance := max_distance
      scale_factor := if 0 < max_distance then target_radius / max_distance else 1
      final_center := (0, 0, 0)
      target_radius := target_radius
      center_mode := center_mode
      normalized_to_unit_sphere := normalize_to_unit_sphere })

/-- Squared norm of a scalar multiple. -/
lemma normSq_smul (s : ℚ) (p : Q3) : normSq (smul s p) = s ^ 2 * normSq p := by
  simp only [normSq, smul]; ring

/-- Squared norm of a division by a scalar. -/
lemma normSq_vdiv (p : Q3) (s : ℚ) : normSq (vdiv p s) = normSq p / s ^ 2 := by
  simp only [normSq, vdiv]
  field_simp

/-- `foldMax` commutes with scaling by a nonnegative factor. -/
lemma foldMax_map_mul (s : ℚ) (hs : 0 ≤ s) (l : List ℚ) (h : l ≠ []) :
    foldMax (l.map (fun x => s * x)) = s * foldMax l := by
  have hh := foldMax_map_scale_sub s 0 hs l h
  simpa using hh

/-- The scaled vertex list of `spherical_normalization` when
`max_distance` is positive, in both unit-sphere branches. -/
lemma spherical_normalization_fst (vertices : List Q3) (r : ℚ) (cm : CenterMode)
    (u : Bool) (d : ℚ) (hd0 : 0 < d) :
    (spherical_normalization vertices r cm u d).1 =
      if u then
        ((centeredSpherical vertices cm).map (fun v => vdiv v d)).map (fun v => smul r v)
      else (centeredSpherical vertices cm).map (fun v => smul (r / d) v) := by
  show sphericalScaledVertices vertices r cm u d = _
  unfold sphericalScaledVertices
  cases u with
  | true => rw [if_pos ⟨rfl, hd0⟩, if_pos rfl]
  | false => rw [if_neg (by simp), if_pos hd0, if_neg (by simp)]

/-- C3 counterexample: the claim "for any non-empty input the maximum
distance of any normalized vertex from the origin equals target_radius"
fails for a degenerate input.  For the single vertex `(1,2,3)` the
centered set is `[(0,0,0)]`, `max_distance = 0`, the guard leaves the
vertices untouched, and the maximum (squared) distance from the origin
is `0`, not `50 ^ 2`. -/
theorem spherical_fit_counterexample :
    ([((1 : ℚ), (2 : ℚ), (3 : ℚ))] : List Q3) ≠ []
    ∧ (0 : ℚ) * 0 = maxDistanceSq [((1 : ℚ), (2 : ℚ), (3 : ℚ))] .centroid
    ∧ foldMax (((spherical_normalization [((1 : ℚ), (2 : ℚ), (3 : ℚ))] 50 .centroid true 0).1).map
        normSq) = 0
    ∧ (0 : ℚ) ≠ 50 ^ 2 := by
  refine ⟨by simp, ?_, ?_, by norm_num⟩
  · norm_num [maxDistanceSq, centeredSpherical, sphericalCenter, centroidOf, meanQ,
      pxs, pys, pzs, vsub, normSq, foldMax]
  · norm_num [spherical_normalization, sphericalScaledVertices, centeredSpherical,
      sphericalCenter, centroidOf, meanQ, pxs, pys, pzs, vsub, normSq, foldMax]

/-- C3 amended: the destination center recorded by spherical
normalization is always exactly `(0,0,0)`; and whenever the input is
nonempty and not degenerate (its maximum distance from the chosen center
is positive), the maximum squared distance of the normalized vertices
from the origin is exactly `target_radius ^ 2`, i.e. the maximum
distance equals the target radius. -/
theorem spherical_fit_amended :
    (∀ (vertices : List Q3) (r : ℚ) (cm : CenterMode) (u : Bool) (d : ℚ),
        (spherical_normalization vertices r cm u d).2.final_center = (0, 0, 0))
    ∧ ∀ (vertices : List Q3) (r : ℚ) (cm : CenterMode) (u : Bool) (d : ℚ),
        vertices ≠ [] → 0 < d → d * d = maxDistanceSq vertices cm →
        foldMax (((spherical_normalization vertices r cm u d).1).map normSq) = r ^ 2 := by
  constructor
  · intro vertices r cm u d; rfl
  · intro vertices r cm u d hne hd0 hdd
    have hdne : d ≠ 0 := ne_of_gt hd0
    have hcne : (centeredSpherical vertices cm).map normSq ≠ [] := by
      simp [centeredSpherical, hne]
    rw [spherical_normalization_fst vertices r cm u d hd0]
    cases u with
    | true =>
        rw [if_pos rfl]
        have hmaps :
            (((centeredSpherical vertices cm).map (fun v => vdiv v d)).map
              (fun v => smul r v)).map normSq =
            ((centeredSpherical vertices cm).map normSq).map
              (fun x => (r ^ 2 / d ^ 2) * x) := by
          simp only [List.map_map]
          refine List.map_congr_left ?_
          intro p _
          show normSq (smul r (vdiv p d)) = r ^ 2 / d ^ 2 * normSq p
          rw [normSq_smul, normSq_vdiv]
          field_simp
        rw [hmaps, foldMax_map_mul _ (by positivity) _ hcne]
        have hfold : foldMax ((centeredSpherical vertices cm).map normSq) = d * d := hdd.symm
        rw [hfold, show d * d = d ^ 2 by ring, div_mul_cancel₀ _ (pow_ne_zero 2 hdne)]
    | false =>
        rw [if_neg (by simp)]
        have hmaps :
            ((centeredSpherical vertices cm).map (fun v => smul (r / d) v)).map normSq =
            ((centeredSpherical vertices cm).map normSq).map
              (fun x => (r / d) ^ 2 * x) := by
          simp only [List.map_map]
          refine List.map_congr_left ?_
          intro p _
          show normSq (smul (r / d) p) = (r / d) ^ 2 * normSq p
          rw [normSq_smul]
        rw [hmaps, foldMax_map_mul _ (by positivity) _ hcne]
        have hfold : foldMax ((centeredSpherical vertices cm).map normSq) = d * d := hdd.symm
        rw [hfold, div_pow, show d * d = d ^ 2 by ring,
          div_mul_cancel₀ _ (pow_ne_zero 2 hdne)]

/-- Witness for `spherical_fit_amended`: the vertex pair
`[(0,0,0), (6,0,0)]` has centroid `(3,0,0)` and maximum center distance
`3`, and normalizes to maximum squared distance `50 ^ 2` from the
origin. -/
theorem spherical_fit_amended_witness :
    foldMax (((spherical_normalization [((0 : ℚ), (0 : ℚ), (0 : ℚ)), (6, 0, 0)]
        50 .centroid true 3).1).map normSq) = 50 ^ 2
    ∧ (spherical_normalization [((0 : ℚ), (0 : ℚ), (0 : ℚ)), (6, 0, 0)]
        50 .centroid true 3).2.final_center = (0, 0, 0) :=
  ⟨spherical_fit_amended.2 [((0 : ℚ), (0 : ℚ), (0 : ℚ)), (6, 0, 0)] 50 .centroid true 3
      (by simp) (by norm_num)
      (by norm_num [maxDistanceSq, centeredSpherical, sphericalCenter, centroidOf, meanQ,
        pxs, pys, pzs, vsub, normSq, foldMax, max_def]),
    spherical_fit_amended.1 [((0 : ℚ), (0 : ℚ), (0 : ℚ)), (6, 0, 0)] 50 .centroid true 3⟩

/-! ### Companion (lesion) coordinate propagation
(`transform_lesion_coordinates`, src/backend/app.py lines 923-1006, and
the per-companion loop of `normalize_mesh`, lines 833-881) -/

/-- A companion volume as its voxel samples: pairs of a voxel index
(already cast to rationals, as numpy does before the spacing multiply)
and the scalar value there. -/
abbrev LesionVolume := List (Q3 × ℚ)

/-- `np.argwhere(lesion_data > 0)`: the indices of the strictly positive
voxels, in sample order. -/
def lesionIndicesOf (lesion_data : LesionVolume) : List Q3 :=
  (lesion_data.filter (fun iv => decide (0 < iv.2))).map (fun iv => iv.1)

/-- The result dictionary built by `transform_lesion_coordinates`. -/
structure LesionResult where
  coordinates : List Q3
  original_coordinates : List Q3
  lesion_count : ℕ
  voxel_indices : List Q3
  lesion_zooms : Q3
  brain_zooms : Q3
  original_centroid : Q3
  transformed_centroid : Q3
deriving DecidableEq

/-- `transform_lesion_coordinates(lesion_file_data, transform_info,
method, brain_zooms)`: find the positive voxels (`None` when there are
none), convert indices to physical mm with the companion voxel spacing,
and replay the primary transform record on them. -/
def transform_lesion_coordinates (lesion_data : LesionVolume) (lesion_zooms : Q3)
    (record : TransformRecord) (brain_zooms : Q3) : Option LesionResult :=
  let lesion_indices := lesionIndicesOf lesion_data
  if lesion_indices = [] then none
  else
    let lesion_coords_mm := lesion_indices.map (fun i => vmul i lesion_zooms)
    let transformed_coords :=
      match record with
      | .cartesian t => apply_cartesian_transform_to_coordinates lesion_coords_mm t
      | .spherical t => apply_spherical_transform_to_coordinates lesion_coords_mm t
    some
      { coordinates := transformed_coords
        original_coordinates := lesion_coords_mm
        lesion_count := lesion_indices.length
        voxel_indices := lesion_indices
        lesion_zooms := lesion_zooms
        brain_zooms := brain_zooms
        original_centroid := centroidOf lesion_coords_mm
        transformed_centroid := centroidOf transformed_coords }

/-- The per-companion `status` recorded by the lesion loop of
`normalize_mesh` (the exception path is outside the functional model). -/
inductive CompanionStatus where
  | success
  | no_lesions_found
deriving DecidableEq

/-- The per-file entry appended to `automatic_lesion_transforms` together
with what `normalize_mesh` stores on the companion file data. -/
structure CompanionOutcome where
  status : CompanionStatus
  transform_applied : Bool
  stored_coordinates : Option (List Q3)
deriving DecidableEq

/-- The body of the companion loop in `normalize_mesh`: on a `some`
result the coordinates are stored and status `success` is reported with
`transform_applied = true`; on `None` the status is `no_lesions_found`
with `transform_applied = false` and nothing stored. -/
def processCompanion (lesion_data : LesionVolume) (lesion_zooms : Q3)
    (record : TransformRecord) (brain_zooms : Q3) : CompanionOutcome :=
  match transform_lesion_coordinates lesion_data lesion_zooms record brain_zooms with
  | some r =>
      { status := .success, transform_applied := true,
        stored_coordinates := some r.coordinates }
  | none =>
      { status := .no_lesions_found, transform_applied := false,
        stored_coordinates := none }

/-- C4: for a companion volume in which no voxel value is strictly
positive, propagation reports the nothing-to-transform outcome:
`transform_lesion_coordinates` returns `None`, and the per-file result
of `normalize_mesh` has status `no_lesions_found` with
`transform_applied = false` and no stored coordinate set. -/
theorem no_significant_voxels_outcome (lesion_data : LesionVolume)
    (lesion_zooms brain_zooms : Q3) (record : TransformRecord)
    (h : ∀ iv ∈ lesion_data, iv.2 ≤ 0) :
    transform_lesion_coordinates lesion_data lesion_zooms record brain_zooms = none
    ∧ processCompanion lesion_data lesion_zooms record brain_zooms =
        { status := .no_lesions_found, transform_applied := false,
          stored_coordinates := none } := by
  have hidx : lesionIndicesOf lesion_data = [] := by
    have hfe : lesion_data.filter (fun iv => decide (0 < iv.2)) = [] := by
      rw [List.filter_eq_nil_iff]
      intro iv hiv
      simpa using not_lt.mpr (h iv hiv)
    simp [lesionIndicesOf, hfe]
  constructor
  · simp [transform_lesion_coordinates, hidx]
  · simp [processCompanion, transform_lesion_coordinates, hidx]

/-- Witness for `no_significant_voxels_outcome`: a two-voxel companion
volume whose values are `0` and `-1`. -/
theorem no_significant_voxels_outcome_witness :
    transform_lesion_coordinates [(((0 : ℚ), (0 : ℚ), (0 : ℚ)), (0 : ℚ)),
        (((1 : ℚ), (0 : ℚ), (0 : ℚ)), (-1 : ℚ))] (1, 1, 1)
      (.cartesian exampleCartInfo) (1, 1, 1) = none
    ∧ processCompanion [(((0 : ℚ), (0 : ℚ), (0 : ℚ)), (0 : ℚ)),
        (((1 : ℚ), (0 : ℚ), (0 : ℚ)), (-1 : ℚ))] (1, 1, 1)
      (.cartesian exampleCartInfo) (1, 1, 1) =
        { status := .no_lesions_found, transform_applied := false,
          stored_coordinates := none } :=
  no_significant_voxels_outcome _ _ _ _ (by
    intro iv hiv
    simp only [List.mem_cons, List.mem_singleton] at hiv
    rcases hiv with rfl | rfl | h
    · norm_num
    · norm_num
    · simp at h)

/-! ### Volumes and iso-surface extraction (`generate_mesh_from_data`,
src/backend/app.py lines 313-374) -/

/-- A 3D scalar grid with its shape; `val` gives the sample at an index
triple (values outside the shape are never read by the pipeline). -/
structure Volume3 where
  nx : ℕ
  ny : ℕ
  nz : ℕ
  val : ℕ → ℕ → ℕ → ℚ

/-- Boundary index reflection of `scipy.ndimage` mode `reflect`
(`d c b a | a b c d | d c b a`), total on all integers via the period
`2 n`. -/
def reflectIdx (n : ℕ) (i : ℤ) : ℕ :=
  if n = 0 then 0
  else
    let m : ℤ := 2 * (n : ℤ)
    let j := (i % m + m) % m
    if j < (n : ℤ) then j.toNat else 2 * n - 1 - j.toNat

/-- Reflected indices stay inside the array. -/
lemma reflectIdx_lt (n : ℕ) (hn : 0 < n) (i : ℤ) : reflectIdx n i < n := by
  have hne : n ≠ 0 := hn.ne'
  have hm : (0 : ℤ) < 2 * (n : ℤ) := by positivity
  have h0 : 0 ≤ (i % (2 * (n : ℤ)) + 2 * (n : ℤ)) % (2 * (n : ℤ)) :=
    Int.emod_nonneg _ hm.ne'
  have h1 : (i % (2 * (n : ℤ)) + 2 * (n : ℤ)) % (2 * (n : ℤ)) < 2 * (n : ℤ) :=
    Int.emod_lt_of_pos _ hm
  simp only [reflectIdx, if_neg hne]
  split <;> omega

/-- 1D correlation of a weight list against a sample line starting at
offset `i`: the inner loop of `scipy.ndimage.correlate1d`. -/
def correlate1 (g : ℤ → ℚ) : List ℚ → ℤ → ℚ
  | [], _ => 0
  | wk :: rest, i => wk * g i + correlate1 g rest (i + 1)

/-- Correlating a normalized kernel against a constant line gives the
constant back. -/
lemma correlate1_const (g : ℤ → ℚ) (c : ℚ) (hg : ∀ t, g t = c) :
    ∀ (w : List ℚ) (i : ℤ), correlate1 g w i = w.sum * c
  | [], _ => by simp [correlate1]
  | wk :: rest, i => by
      rw [correlate1, correlate1_const g c hg rest (i + 1), hg i, List.sum_cons]
      ring

/-- Convolution along the first axis with kernel `w`, reflect boundary,
kernel centered at `w.length / 2` (one separable pass of
`scipy.ndimage.gaussian_filter`). -/
def convX (w : List ℚ) (v : Volume3) : Volume3 :=
  { v with val := fun x y z =>
      (correlate1 (fun t => v.val (reflectIdx v.nx t) y z) w
        ((x : ℤ) - ((w.length / 2 : ℕ) : ℤ))) }

/-- Convolution along the second axis. -/
def convY (w : List ℚ) (v : Volume3) : Volume3 :=
  { v with val := fun x y z =>
      (correlate1 (fun t => v.val x (reflectIdx v.ny t) z) w
        ((y : ℤ) - ((w.length / 2 : ℕ) : ℤ))) }

/-- Convolution along the third axis. -/
def convZ (w : List ℚ) (v : Volume3) : Volume3 :=
  { v with val := fun x y z =>
      (correlate1 (fun t => v.val x y (reflectIdx v.nz t)) w
        ((z : ℤ) - ((w.length / 2 : ℕ) : ℤ))) }

/-- `scipy.ndimage.gaussian_filter(data, sigma)` as three separable
passes with the (normalized, truncated) Gaussian kernel `w`; the kernel
weights depend on `sigma` through `exp` and are therefore abstracted as
a weight list with `w.sum = 1`. -/
def gaussian_filter (w : List ℚ) (v : Volume3) : Volume3 :=
  convZ w (convY w (convX w v))

/-- `convX` preserves an in-shape constant volume. -/
lemma convX_const (w : List ℚ) (v : Volume3) (c : ℚ) (hw : w.sum = 1) (hnx : 0 < v.nx)
    (h : ∀ x y z, x < v.nx → y < v.ny → z < v.nz → v.val x y z = c) :
    ∀ x y z, x < v.nx → y < v.ny → z < v.nz → (convX w v).val x y z = c := by
  intro x y z hx hy hz
  show correlate1 (fun t => v.val (reflectIdx v.nx t) y z) w _ = c
  rw [correlate1_const _ c (fun t => h _ y z (reflectIdx_lt v.nx hnx t) hy hz) w _, hw,
    one_mul]

/-- `convY` preserves an in-shape constant volume. -/
lemma convY_const (w : List ℚ) (v : Volume3) (c : ℚ) (hw : w.sum = 1) (hny : 0 < v.ny)
    (h : ∀ x y z, x < v.nx → y < v.ny → z < v.nz → v.val x y z = c) :
    ∀ x y z, x < v.nx → y < v.ny → z < v.nz → (convY w v).val x y z = c := by
  intro x y z hx hy hz
  show correlate1 (fun t => v.val x (reflectIdx v.ny t) z) w _ = c
  rw [correlate1_const _ c (fun t => h x _ z hx (reflectIdx_lt v.ny hny t) hz) w _, hw,
    one_mul]

/-- `convZ` preserves an in-shape constant volume. -/
lemma convZ_const (w : List ℚ) (v : Volume3) (c : ℚ) (hw : w.sum = 1) (hnz : 0 < v.nz)
    (h : ∀ x y z, x < v.nx → y < v.ny → z < v.nz → v.val x y z = c) :
    ∀ x y z, x < v.nx → y < v.ny → z < v.nz → (convZ w v).val x y z = c := by
  intro x y z hx hy hz
  show correlate1 (fun t => v.val x y (reflectIdx v.nz t)) w _ = c
  rw [correlate1_const _ c (fun t => h x y _ hx hy (reflectIdx_lt v.nz hnz t)) w _, hw,
    one_mul]

/-- Gaussian smoothing with a normalized kernel preserves an in-shape
constant volume. -/
lemma gaussian_filter_const (w : List ℚ) (v : Volume3) (c : ℚ) (hw : w.sum = 1)
    (hx : 0 < v.nx) (hy : 0 < v.ny) (hz : 0 < v.nz)
    (h : ∀ x y z, x < v.nx → y < v.ny → z < v.nz → v.val x y z = c) :
    ∀ x y z, x < v.nx → y < v.ny → z < v.nz → (gaussian_filter w v).val x y z = c := by
  have h1 := convX_const w v c hw hx h
  have h2 := convY_const w (convX w v) c hw hy h1
  exact convZ_const w (convY w (convX w v)) c hw hz h2

/-- All index triples of a volume, in row-major sample order. -/
def allIdx (v : Volume3) : List (ℕ × ℕ × ℕ) :=
  (List.range v.nx).flatMap fun x =>
    (List.range v.ny).flatMap fun y =>
      (List.range v.nz).map fun z => (x, y, z)

/-- The flat list of all samples of a volume. -/
def volVals (v : Volume3) : List ℚ := (allIdx v).map fun i => v.val i.1 i.2.1 i.2.2

/-- `np.max(volume)`. -/
def volMax (v : Volume3) : ℚ := foldMax (volVals v)

/-- `np.min(volume)`. -/
def volMin (v : Volume3) : ℚ := foldMin (volVals v)

/-- `np.sum(volume > t)`: the number of samples strictly above `t`. -/
def countAbove (v : Volume3) (t : ℚ) : ℕ :=
  ((volVals v).filter (fun a => decide (t < a))).length

/-- Membership in `allIdx` gives the shape bounds. -/
lemma mem_allIdx {v : Volume3} {i : ℕ × ℕ × ℕ} (hi : i ∈ allIdx v) :
    i.1 < v.nx ∧ i.2.1 < v.ny ∧ i.2.2 < v.nz := by
  simp only [allIdx, List.mem_flatMap, List.mem_map, List.mem_range] at hi
  obtain ⟨x, hx, y, hy, z, hz, rfl⟩ := hi
  exact ⟨hx, hy, hz⟩

/-- A volume with positive shape has at least index `(0,0,0)`. -/
lemma allIdx_ne_nil (v : Volume3) (hx : 0 < v.nx) (hy : 0 < v.ny) (hz : 0 < v.nz) :
    allIdx v ≠ [] := by
  have hmem : ((0, 0, 0) : ℕ × ℕ × ℕ) ∈ allIdx v := by
    simp only [allIdx, List.mem_flatMap, List.mem_map, List.mem_range]
    exact ⟨0, hx, 0, hy, 0, hz, rfl⟩
  exact List.ne_nil_of_mem hmem

/-- `foldMax` of a constant nonempty list. -/
lemma foldMax_of_all_eq : ∀ (l : List ℚ), l ≠ [] → ∀ c, (∀ x ∈ l, x = c) → foldMax l = c
  | [], h, _, _ => absurd rfl h
  | [x], _, c, hall => by
      have hx := hall x (by simp)
      simpa [foldMax] using hx
  | x :: y :: t, _, c, hall => by
      have ih := foldMax_of_all_eq (y :: t) (by simp) c
        (fun a ha => hall a (List.mem_cons_of_mem _ ha))
      have hx := hall x (by simp)
      show max x (foldMax (y :: t)) = c
      rw [ih, hx, max_self]

/-- `foldMin` of a constant nonempty list. -/
lemma foldMin_of_all_eq : ∀ (l : List ℚ), l ≠ [] → ∀ c, (∀ x ∈ l, x = c) → foldMin l = c
  | [], h, _, _ => absurd rfl h
  | [x], _, c, hall => by
      have hx := hall x (by simp)
      simpa [foldMin] using hx
  | x :: y :: t, _, c, hall => by
      have ih := foldMin_of_all_eq (y :: t) (by simp) c
        (fun a ha => hall a (List.mem_cons_of_mem _ ha))
      have hx := hall x (by simp)
      show min x (foldMin (y :: t)) = c
      rw [ih, hx, min_self]

/-- `np.max` of an in-shape constant volume. -/
lemma volMax_const (v : Volume3) (c : ℚ) (hx : 0 < v.nx) (hy : 0 < v.ny) (hz : 0 < v.nz)
    (h : ∀ x y z, x < v.nx → y < v.ny → z < v.nz → v.val x y z = c) : volMax v = c := by
  apply foldMax_of_all_eq _ ?_ c
  · intro a ha
    simp only [volVals, List.mem_map] at ha
    obtain ⟨i, hi, rfl⟩ := ha
    obtain ⟨h1, h2, h3⟩ := mem_allIdx hi
    exact h _ _ _ h1 h2 h3
  · simpa [volVals] using allIdx_ne_nil v hx hy hz

/-- `np.min` of an in-shape constant volume. -/
lemma volMin_const (v : Volume3) (c : ℚ) (hx : 0 < v.nx) (hy : 0 < v.ny) (hz : 0 < v.nz)
    (h : ∀ x y z, x < v.nx → y < v.ny → z < v.nz → v.val x y z = c) : volMin v = c := by
  apply foldMin_of_all_eq _ ?_ c
  · intro a ha
    simp only [volVals, List.mem_map] at ha
    obtain ⟨i, hi, rfl⟩ := ha
    obtain ⟨h1, h2, h3⟩ := mem_allIdx hi
    exact h _ _ _ h1 h2 h3
  · simpa [volVals] using allIdx_ne_nil v hx hy hz

/-- The smoothing step of `generate_mesh_from_data`: smooth only when
`smoothing > 0`, else use the data unchanged (the `astype(float)` cast
is the identity here). -/
def smoothedData (w : List ℚ) (data : Volume3) (smoothing : ℚ) : Volume3 :=
  if 0 < smoothing then gaussian_filter w data else data

/-- `actual_threshold = data_min + (data_max - data_min) * threshold_level`. -/
def actualThreshold (w : List ℚ) (data : Volume3) (threshold_level smoothing : ℚ) : ℚ :=
  volMin (smoothedData w data smoothing) +
    (volMax (smoothedData w data smoothing) - volMin (smoothedData w data smoothing)) *
      threshold_level

/-- The `mesh_stats` dictionary of `generate_mesh_from_data`. -/
structure MeshStats where
  vertex_count : ℕ
  face_count : ℕ
  threshold_used : ℚ
  data_range : ℚ × ℚ
  voxels_above_threshold : ℕ
  smoothing_sigma : ℚ
deriving DecidableEq

/-- The control-flow outcome of `generate_mesh_from_data`: the flat-data
early return, the too-few-voxels early return, or a marching cubes mesh
with its stats. -/
inductive MeshComputation where
  | noVariation
  | insufficientSignal
  | mesh (vertices : List Q3) (faces : List (ℕ × ℕ × ℕ)) (stats : MeshStats)
deriving DecidableEq

/-- The body of `generate_mesh_from_data(data, threshold_level,
smoothing)` with the branch taken made explicit.  `mc` abstracts the
external `skimage.measure.marching_cubes` call (`step_size = 1`, voxel
spacing `(1,1,1)`); `w` abstracts the normalized Gaussian kernel of
`scipy.ndimage.gaussian_filter`. -/
def generateMeshCore (mc : Volume3 → ℚ → List Q3 × List (ℕ × ℕ × ℕ)) (w : List ℚ)
    (data : Volume3) (threshold_level smoothing : ℚ) : MeshComputation :=
  if volMax (smoothedData w data smoothing) = volMin (smoothedData w data smoothing) then
    .noVariation
  else if countAbove (smoothedData w data smoothing)
      (actualThreshold w data threshold_level smoothing) < 100 then
    .insufficientSignal
  else
    .mesh (mc (smoothedData w data smoothing) (actualThreshold w data threshold_level smoothing)).1
      (mc (smoothedData w data smoothing) (actualThreshold w data threshold_level smoothing)).2
      { vertex_count :=
          (mc (smoothedData w data smoothing)
            (actualThreshold w data threshold_level smoothing)).1.length
        face_count :=
          (mc (smoothedData w data smoothing)
            (actualThreshold w data threshold_level smoothing)).2.length
        threshold_used := actualThreshold w data threshold_level smoothing
        data_range := (volMin (smoothedData w data smoothing),
          volMax (smoothedData w data smoothing))
        voxels_above_threshold := countAbove (smoothedData w data smoothing)
          (actualThreshold w data threshold_level smoothing)
        smoothing_sigma := smoothing }

/-- What `generate_mesh_from_data` actually returns to its callers: the
Python triple `(vertices, faces, stats)`, which is `(None, None, {})` on
BOTH failure paths. -/
def generate_mesh_from_data (mc : Volume3 → ℚ → List Q3 × List (ℕ × ℕ × ℕ)) (w : List ℚ)
    (data : Volume3) (threshold_level smoothing : ℚ) :
    Option (List Q3) × Option (List (ℕ × ℕ × ℕ)) × Option MeshStats :=
  match generateMeshCore mc w data threshold_level smoothing with
  | .noVariation => (none, none, none)
  | .insufficientSignal => (none, none, none)
  | .mesh v f s => (some v, some f, some s)

/-- C5: for a volume whose in-shape samples are all equal, surface
extraction takes the no-variation branch and returns the failure triple
for every `threshold_level ∈ [0,1]`, every `smoothing ≥ 0`, every
normalized smoothing kernel and every marching cubes implementation; it
never returns a mesh. -/
theorem flat_volume_no_variation
    (mc : Volume3 → ℚ → List Q3 × List (ℕ × ℕ × ℕ)) (w : List ℚ) (data : Volume3)
    (c threshold_level smoothing : ℚ)
    (hx : 0 < data.nx) (hy : 0 < data.ny) (hz : 0 < data.nz)
    (hconst : ∀ x y z, x < data.nx → y < data.ny → z < data.nz → data.val x y z = c)
    (hw : w.sum = 1) (ht0 : 0 ≤ threshold_level) (ht1 : threshold_level ≤ 1)
    (hs : 0 ≤ smoothing) :
    generateMeshCore mc w data threshold_level smoothing = .noVariation
    ∧ generate_mesh_from_data mc w data threshold_level smoothing = (none, none, none) := by
  have hflat : volMax (smoothedData w data smoothing) = volMin (smoothedData w data smoothing) := by
    by_cases hpos : 0 < smoothing
    · have hc := gaussian_filter_const w data c hw hx hy hz hconst
      simp only [smoothedData, if_pos hpos]
      rw [volMax_const (gaussian_filter w data) c hx hy hz hc,
        volMin_const (gaussian_filter w data) c hx hy hz hc]
    · simp only [smoothedData, if_neg hpos]
      rw [volMax_const data c hx hy hz hconst, volMin_const data c hx hy hz hconst]
  have hcore : generateMeshCore mc w data threshold_level smoothing = .noVariation := by
    unfold generateMeshCore
    rw [if_pos hflat]
  refine ⟨hcore, ?_⟩
  unfold generate_mesh_from_data
  rw [hcore]

/-- Witness for `flat_volume_no_variation`: a `1 × 1 × 1` volume with
constant value `5`, default threshold `1/2` and smoothing `1`, kernel
`[1]`. -/
theorem flat_volume_no_variation_witness :
    generateMeshCore (fun _ _ => ([], [])) [(1 : ℚ)] ⟨1, 1, 1, fun _ _ _ => 5⟩ (1 / 2) 1 =
      .noVariation
    ∧ generate_mesh_from_data (fun _ _ => ([], [])) [(1 : ℚ)] ⟨1, 1, 1, fun _ _ _ => 5⟩
        (1 / 2) 1 = (none, none, none) :=
  flat_volume_no_variation (fun _ _ => ([], [])) [(1 : ℚ)] ⟨1, 1, 1, fun _ _ _ => 5⟩ 5
    (1 / 2) 1 (by norm_num) (by norm_num) (by norm_num)
    (fun _ _ _ _ _ _ => rfl) (by simp) (by norm_num) (by norm_num) (by norm_num)

/-- A flat test volume: every sample is `7`. -/
def flatVol : Volume3 := ⟨1, 1, 1, fun _ _ _ => 7⟩

/-- A nearly flat test volume: one sample `10` above a `0` background,
so exactly one voxel lies above the mid threshold. -/
def spikeVol : Volume3 := ⟨1, 1, 2, fun _ _ z => if z = 0 then 0 else 10⟩

/-- A trivial stand-in for the marching cubes callable in concrete
evaluations (never reached on the failure paths). -/
def mcNone : Volume3 → ℚ → List Q3 × List (ℕ × ℕ × ℕ) := fun _ _ => ([], [])

/-- C6 counterexample: the flat-volume failure and the
too-few-voxels-above-threshold failure are NOT distinguishable in the
returned value: `generate_mesh_from_data` returns the identical triple
`(None, None, {})` for a flat volume (no-variation branch) and for a
spiked volume (insufficient-signal branch), at `threshold_level = 1/2`,
`smoothing = 0`. -/
theorem failure_collapse_counterexample :
    generateMeshCore mcNone [] flatVol (1 / 2) 0 = .noVariation
    ∧ generateMeshCore mcNone [] spikeVol (1 / 2) 0 = .insufficientSignal
    ∧ MeshComputation.noVariation ≠ MeshComputation.insufficientSignal
    ∧ generate_mesh_from_data mcNone [] flatVol (1 / 2) 0 =
        generate_mesh_from_data mcNone [] spikeVol (1 / 2) 0 := by
  have hflat : generateMeshCore mcNone [] flatVol (1 / 2) 0 = .noVariation := by
    norm_num [generateMeshCore, smoothedData, actualThreshold, volMax, volMin, countAbove,
      volVals, allIdx, flatVol, List.range_succ, foldMax, foldMin]
  have hspike : generateMeshCore mcNone [] spikeVol (1 / 2) 0 = .insufficientSignal := by
    norm_num [generateMeshCore, smoothedData, actualThreshold, volMax, volMin, countAbove,
      volVals, allIdx, spikeVol, List.range_succ, foldMax, foldMin, max_def, min_def]
  refine ⟨hflat, hspike, by simp, ?_⟩
  unfold generate_mesh_from_data
  rw [hflat, hspike]

/-- C6 amended: every extraction failure is returned (not retried) as a
failure value, but the two failure kinds produce the same returned
value `(None, None, {})` and are therefore not distinguishable by the
caller; only the internal branch (and the log line) differs, as the
concrete flat and spiked volumes show. -/
theorem failure_collapse_amended :
    (∀ (mc : Volume3 → ℚ → List Q3 × List (ℕ × ℕ × ℕ)) (w : List ℚ) (data : Volume3)
        (t σ : ℚ),
        generateMeshCore mc w data t σ = .noVariation →
          generate_mesh_from_data mc w data t σ = (none, none, none))
    ∧ (∀ (mc : Volume3 → ℚ → List Q3 × List (ℕ × ℕ × ℕ)) (w : List ℚ) (data : Volume3)
        (t σ : ℚ),
        generateMeshCore mc w data t σ = .insufficientSignal →
          generate_mesh_from_data mc w data t σ = (none, none, none))
    ∧ generate_mesh_from_data mcNone [] flatVol (1 / 2) 0 =
        generate_mesh_from_data mcNone [] spikeVol (1 / 2) 0 := by
  have gen : ∀ (mc : Volume3 → ℚ → List Q3 × List (ℕ × ℕ × ℕ)) (w : List ℚ)
      (data : Volume3) (t σ : ℚ) (o : MeshComputation),
      generateMeshCore mc w data t σ = o →
      (o = .noVariation ∨ o = .insufficientSignal) →
      generate_mesh_from_data mc w data t σ = (none, none, none) := by
    intro mc w data t σ o ho hcase
    unfold generate_mesh_from_data
    rw [ho]
    rcases hcase with rfl | rfl <;> rfl
  refine ⟨fun mc w data t σ h => gen mc w data t σ _ h (Or.inl rfl),
    fun mc w data t σ h => gen mc w data t σ _ h (Or.inr rfl), ?_⟩
  have hflat : generateMeshCore mcNone [] flatVol (1 / 2) 0 = .noVariation := by
    norm_num [generateMeshCore, smoothedData, actualThreshold, volMax, volMin, countAbove,
      volVals, allIdx, flatVol, List.range_succ, foldMax, foldMin]
  have hspike : generateMeshCore mcNone [] spikeVol (1 / 2) 0 = .insufficientSignal := by
    norm_num [generateMeshCore, smoothedData, actualThreshold, volMax, volMin, countAbove,
      volVals, allIdx, spikeVol, List.range_succ, foldMax, foldMin, max_def, min_def]
  unfold generate_mesh_from_data
  rw [hflat, hspike]

/-- Witness for `failure_collapse_amended`: the no-variation hypothesis
discharged at the concrete flat volume. -/
theorem failure_collapse_amended_witness :
    generate_mesh_from_data mcNone [] flatVol (1 / 2) 0 = (none, none, none) :=
  failure_collapse_amended.1 mcNone [] flatVol (1 / 2) 0
    (by norm_num [generateMeshCore, smoothedData, actualThreshold, volMax, volMin,
      countAbove, volVals, allIdx, flatVol, List.range_succ, foldMax, foldMin])

/-! ### Entry-point parameter defaults

`get_mesh` (src/backend/app.py lines 1130-1133), `normalize_mesh`
(lines 776-777) and `export_mesh` (lines 1429-1431) each resolve their
extraction parameters before calling `generate_mesh_from_data`, whose
own Python signature is `generate_mesh_from_data(data,
threshold_level=0.5, smoothing=1.0)` (line 313). -/

/-- `float(request.args.get('threshold', 0.1))` in `get_mesh`. -/
def get_mesh_threshold_param (arg : Option ℚ) : ℚ := arg.getD (1 / 10)

/-- `float(request.args.get('smoothing', 1.0))` in `get_mesh`. -/
def get_mesh_smoothing_param (arg : Option ℚ) : ℚ := arg.getD 1

/-- `params.get('threshold', 0.1)` in `normalize_mesh`. -/
def normalize_mesh_threshold_param (arg : Option ℚ) : ℚ := arg.getD (1 / 10)

/-- `params.get('smoothing', 1.0)` in `normalize_mesh`. -/
def normalize_mesh_smoothing_param (arg : Option ℚ) : ℚ := arg.getD 1

/-- `float(request.args.get('threshold', 0.1))` in `export_mesh`. -/
def export_mesh_threshold_param (arg : Option ℚ) : ℚ := arg.getD (1 / 10)

/-- `float(request.args.get('smoothing', 1.0))` in `export_mesh`. -/
def export_mesh_smoothing_param (arg : Option ℚ) : ℚ := arg.getD 1

/-- The `threshold_level=0.5` default of the Python signature of
`generate_mesh_from_data` itself. -/
def generate_mesh_threshold_default : ℚ := 1 / 2

/-- The `smoothing=1.0` default of the Python signature of
`generate_mesh_from_data` itself. -/
def generate_mesh_smoothing_default : ℚ := 1

/-- C7 counterexample: when the caller of `get_mesh` supplies no
threshold, the threshold actually used is `0.1`, not the `0.5` default
of the inner signature, so the claimed default does not hold at this
entry point. -/
theorem entry_point_threshold_counterexample :
    get_mesh_threshold_param none = 1 / 10
    ∧ get_mesh_threshold_param none ≠ generate_mesh_threshold_default := by
  constructor
  · rfl
  · norm_num [get_mesh_threshold_param, generate_mesh_threshold_default]

/-- C7 amended: the inner function `generate_mesh_from_data` has
signature defaults `threshold_level = 0.5` and `smoothing = 1.0`, but
every entry point that performs surface extraction (`get_mesh`,
`normalize_mesh`, `export_mesh`) supplies the threshold explicitly with
default `0.1`; the smoothing default `1.0` does hold at every entry
point. -/
theorem entry_point_defaults_amended :
    get_mesh_threshold_param none = 1 / 10
    ∧ normalize_mesh_threshold_param none = 1 / 10
    ∧ export_mesh_threshold_param none = 1 / 10
    ∧ get_mesh_smoothing_param none = 1
    ∧ normalize_mesh_smoothing_param none = 1
    ∧ export_mesh_smoothing_param none = 1
    ∧ generate_mesh_threshold_default = 1 / 2
    ∧ generate_mesh_smoothing_default = 1
    ∧ get_mesh_threshold_param none ≠ generate_mesh_threshold_default := by
  refine ⟨rfl, rfl, rfl, rfl, rfl, rfl, rfl, rfl, ?_⟩
  norm_num [get_mesh_threshold_param, generate_mesh_threshold_default]

/-! ### The processing cache of `get_mesh`
(src/backend/app.py lines 1138-1152 and 1171-1180) -/

/-- A mesh cache key `f"{data_hash}_{threshold}_{smoothing}"`: the
content fingerprint together with the ordered parameters. -/
abbrev CacheKey := ℤ × ℚ × ℚ

/-- A `processing_cache` entry for a mesh key: the optional `'mesh'`
field (an entry exists without it only transiently). -/
structure CacheEntry (α : Type) where
  mesh : Option α
deriving DecidableEq

/-- The `processing_cache` dictionary, as an association list in
insertion order. -/
abbrev Cache (α : Type) := List (CacheKey × CacheEntry α)

/-- `cache_key in processing_cache` plus the entry read. -/
def cacheLookup {α : Type} (cache : Cache α) (k : CacheKey) : Option (CacheEntry α) :=
  (cache.find? fun kv => decide (kv.1 = k)).map fun kv => kv.2

/-- `if cache_key not in processing_cache: processing_cache[cache_key]
= {}` followed by `processing_cache[cache_key]['mesh'] = value`. -/
def cacheInsertMesh {α : Type} (cache : Cache α) (k : CacheKey) (m : α) : Cache α :=
  match cacheLookup cache k with
  | some _ => cache.map fun kv => if kv.1 = k then (kv.1, { mesh := some m }) else kv
  | none => cache ++ [(k, { mesh := some m })]

/-- The fields of the `get_mesh` JSON response tracked here. -/
structure MeshResponse (α : Type) where
  mesh_payload : α
  from_cache : Bool
deriving DecidableEq

/-- One `get_mesh` call on the non-normalized path with `use_cache` on:
return the cached payload with `from_cache = true` when the key holds a
mesh, else compute, store under the key, and return `from_cache =
false`.  The expensive computation is the pure value `computed`
(generation is deterministic in the data and parameters, which the key
fixes). -/
def getMeshCacheStep {α : Type} (cache : Cache α) (k : CacheKey) (computed : α) :
    MeshResponse α × Cache α :=
  match cacheLookup cache k with
  | some e =>
      match e.mesh with
      | some m => ({ mesh_payload := m, from_cache := true }, cache)
      | none =>
          ({ mesh_payload := computed, from_cache := false }, cacheInsertMesh cache k computed)
  | none =>
      ({ mesh_payload := computed, from_cache := false }, cacheInsertMesh cache k computed)

/-- Lookup skips an entry with a different key. -/
lemma cacheLookup_cons_ne {α : Type} (kv : CacheKey × CacheEntry α) (t : Cache α)
    (k : CacheKey) (hk : kv.1 ≠ k) : cacheLookup (kv :: t) k = cacheLookup t k := by
  simp [cacheLookup, List.find?_cons, hk]

/-- Appending a fresh key is found by lookup. -/
lemma cacheLookup_append_of_none {α : Type} (c : Cache α) (k : CacheKey) (e : CacheEntry α)
    (h : cacheLookup c k = none) :
    cacheLookup (c ++ [(k, e)]) k = some e := by
  induction c with
  | nil => simp [cacheLookup]
  | cons kv t ih =>
      by_cases hk : kv.1 = k
      · exfalso
        simp [cacheLookup, List.find?_cons, hk] at h
      · rw [cacheLookup_cons_ne kv t k hk] at h
        rw [List.cons_append, cacheLookup_cons_ne kv (t ++ [(k, e)]) k hk]
        exact ih h

/-- Updating an existing key is found by lookup. -/
lemma cacheLookup_update {α : Type} (c : Cache α) (k : CacheKey) (m : α) :
    cacheLookup
      (c.map fun kv => if kv.1 = k then (kv.1, ({ mesh := some m } : CacheEntry α)) else kv) k
      = (cacheLookup c k).map (fun _ => ({ mesh := some m } : CacheEntry α)) := by
  induction c with
  | nil => simp [cacheLookup]
  | cons kv t ih =>
      by_cases hk : kv.1 = k
      · simp [cacheLookup, List.find?_cons, hk]
      · rw [List.map_cons, if_neg hk, cacheLookup_cons_ne kv t k hk,
          cacheLookup_cons_ne kv
            (t.map fun kv => if kv.1 = k then (kv.1, ({ mesh := some m } : CacheEntry α)) else kv)
            k hk]
        exact ih

/-- After `cacheInsertMesh`, the key holds exactly the inserted mesh. -/
lemma cacheLookup_insert {α : Type} (c : Cache α) (k : CacheKey) (m : α) :
    cacheLookup (cacheInsertMesh c k m) k = some { mesh := some m } := by
  unfold cacheInsertMesh
  cases hl : cacheLookup c k with
  | none => exact cacheLookup_append_of_none c k _ hl
  | some e =>
      dsimp only
      rw [cacheLookup_update c k m, hl]
      rfl

/-- A `get_mesh` cache step on a key that holds a mesh returns it from
cache without touching the state. -/
lemma getMeshCacheStep_of_mesh {α : Type} (cache : Cache α) (k : CacheKey) (computed m : α)
    (h : cacheLookup cache k = some { mesh := some m }) :
    getMeshCacheStep cache k computed = ({ mesh_payload := m, from_cache := true }, cache) := by
  unfold getMeshCacheStep
  rw [h]

/-- A `get_mesh` cache step on a key that holds no mesh computes,
stores, and reports a cache miss. -/
lemma getMeshCacheStep_of_no_mesh {α : Type} (cache : Cache α) (k : CacheKey) (computed : α)
    (h : (cacheLookup cache k).bind CacheEntry.mesh = none) :
    getMeshCacheStep cache k computed =
      ({ mesh_payload := computed, from_cache := false }, cacheInsertMesh cache k computed) := by
  unfold getMeshCacheStep
  cases hl : cacheLookup cache k with
  | none => rfl
  | some e =>
      rw [hl, Option.some_bind] at h
      dsimp only
      rw [h]

/-- C8: two sequential `get_mesh` computations with the identical cache
key, starting from a state in which the key holds no mesh, return the
identical mesh payload; the first is not served from cache, the second
is, and the cached entry is exactly the value computed by the first
call. -/
theorem cache_coherence {α : Type} (cache : Cache α) (k : CacheKey) (computed : α)
    (h : (cacheLookup cache k).bind CacheEntry.mesh = none) :
    (getMeshCacheStep cache k computed).1.from_cache = false
    ∧ (getMeshCacheStep (getMeshCacheStep cache k computed).2 k computed).1.from_cache = true
    ∧ (getMeshCacheStep (getMeshCacheStep cache k computed).2 k computed).1.mesh_payload =
        (getMeshCacheStep cache k computed).1.mesh_payload
    ∧ (getMeshCacheStep cache k computed).1.mesh_payload = computed
    ∧ (cacheLookup (getMeshCacheStep cache k computed).2 k).map CacheEntry.mesh =
        some (some computed) := by
  have hstep1 := getMeshCacheStep_of_no_mesh cache k computed h
  have hlook2 : cacheLookup (getMeshCacheStep cache k computed).2 k =
      some { mesh := some computed } := by
    rw [hstep1]
    exact cacheLookup_insert cache k computed
  have hstep2 := getMeshCacheStep_of_mesh (getMeshCacheStep cache k computed).2 k
    computed computed hlook2
  refine ⟨by rw [hstep1], by rw [hstep2], by rw [hstep2, hstep1], by rw [hstep1], ?_⟩
  rw [hlook2]
  rfl

/-- Witness for `cache_coherence`: the empty cache, a concrete key and
a concrete computed payload. -/
theorem cache_coherence_witness :
    (getMeshCacheStep ([] : Cache ℚ) (7, 1 / 10, 1) 42).1.from_cache = false
    ∧ (getMeshCacheStep (getMeshCacheStep ([] : Cache ℚ) (7, 1 / 10, 1) 42).2
        (7, 1 / 10, 1) 42).1.from_cache = true
    ∧ (getMeshCacheStep (getMeshCacheStep ([] : Cache ℚ) (7, 1 / 10, 1) 42).2
        (7, 1 / 10, 1) 42).1.mesh_payload =
        (getMeshCacheStep ([] : Cache ℚ) (7, 1 / 10, 1) 42).1.mesh_payload
    ∧ (getMeshCacheStep ([] : Cache ℚ) (7, 1 / 10, 1) 42).1.mesh_payload = 42
    ∧ (cacheLookup (getMeshCacheStep ([] : Cache ℚ) (7, 1 / 10, 1) 42).2
        (7, 1 / 10, 1)).map CacheEntry.mesh = some (some 42) :=
  cache_coherence [] (7, 1 / 10, 1) 42 rfl

/-! ### Slice orientation (`apply_radiological_orientation`,
src/backend/app.py lines 57-76) -/

/-- The three canonical viewing planes accepted by the slice route. -/
inductive ViewType where
  | axial
  | coronal
  | sagittal
deriving DecidableEq

/-- `np.flipud`: reverse the row order. -/
def flipud (m : List (List ℚ)) : List (List ℚ) := m.reverse

/-- `np.fliplr`: reverse each row. -/
def fliplr (m : List (List ℚ)) : List (List ℚ) := m.map List.reverse

/-- `np.rot90(m, k=1)`: one counterclockwise quarter turn. -/
def rot90ccw (m : List (List ℚ)) : List (List ℚ) := (List.transpose m).reverse

/-- `np.rot90(m, k=-1)`: one clockwise quarter turn. -/
def rot90cw (m : List (List ℚ)) : List (List ℚ) := (List.transpose m).map List.reverse

/-- `apply_radiological_orientation(data, view_type)`: the fixed
per-plane composition of quarter turns and flips. -/
def apply_radiological_orientation (data : List (List ℚ)) : ViewType → List (List ℚ)
  | .axial => flipud (rot90cw data)
  | .coronal => rot90ccw data
  | .sagittal => fliplr (rot90ccw data)

/-- Orientation with the input array threaded through as explicit
state: numpy `rot90`, `flipud` and `fliplr` build views or fresh arrays
and never write to their argument, so the operation returns the
oriented copy together with the untouched input. -/
def orientSliceStateful (data : List (List ℚ)) (view_type : ViewType) :
    List (List ℚ) × List (List ℚ) :=
  (apply_radiological_orientation data view_type, data)

/-- C9: slice orientation is deterministic and side-effect free: equal
raw slices give equal oriented outputs for every plane, and the input
array after the call is the input array before it. -/
theorem slice_orientation_pure (m₁ m₂ : List (List ℚ)) (v : ViewType) (h : m₁ = m₂) :
    orientSliceStateful m₁ v = orientSliceStateful m₂ v
    ∧ (orientSliceStateful m₁ v).2 = m₁ := ⟨by rw [h], rfl⟩

/-- Witness for `slice_orientation_pure` at a concrete slice. -/
theorem slice_orientation_pure_witness :
    orientSliceStateful [[(1 : ℚ), 2], [3, 4]] .axial =
      orientSliceStateful [[(1 : ℚ), 2], [3, 4]] .axial
    ∧ (orientSliceStateful [[(1 : ℚ), 2], [3, 4]] .axial).2 = [[(1 : ℚ), 2], [3, 4]] :=
  slice_orientation_pure [[(1 : ℚ), 2], [3, 4]] [[(1 : ℚ), 2], [3, 4]] .axial rfl

/-! ### Lesion coordinate responses (`handle_lesion_coordinates`,
src/backend/app.py lines 1202-1323) -/

/-- The parts of the `get_mesh` lesion response tracked here:
`lesion_data.coordinates`, the `transform_applied` and
`centering_applied` flags, `original_centroid`, `lesion_count` and the
`normalized` marker. -/
structure LesionCoordinateResponse where
  coordinates : List Q3
  transform_applied : Bool
  centering_applied : Bool
  original_centroid : Option Q3
  lesion_count : ℕ
  normalized : Bool
deriving DecidableEq

/-- The untransformed path of `handle_lesion_coordinates` (lines
1238-1316): with no positive voxel, an empty coordinate list and no
centering flag; otherwise the physical-mm coordinates translated by
their own centroid, with `centering_applied = true` and the original
centroid reported. -/
def lesionOriginalResponse (lesion_data : LesionVolume) (zooms : Q3) :
    LesionCoordinateResponse :=
  if lesionIndicesOf lesion_data = [] then
    { coordinates := []
      transform_applied := false
      centering_applied := false
      original_centroid := none
      lesion_count := 0
      normalized := false }
  else
    { coordinates := ((lesionIndicesOf lesion_data).map fun i => vmul i zooms).map
        (fun p => vsub p (centroidOf ((lesionIndicesOf lesion_data).map fun i => vmul i zooms)))
      transform_applied := false
      centering_applied := true
      original_centroid :=
        some (centroidOf ((lesionIndicesOf lesion_data).map fun i => vmul i zooms))
      lesion_count := (lesionIndicesOf lesion_data).length
      normalized := false }

/-- `handle_lesion_coordinates`: serve stored transformed coordinates
when present and marked applied, otherwise fall back to the centered
original coordinates. -/
def handle_lesion_coordinates (stored : Option (List Q3)) (lesion_transform_applied : Bool)
    (lesion_data : LesionVolume) (zooms : Q3) : LesionCoordinateResponse :=
  match stored, lesion_transform_applied with
  | some coordinate_data, true =>
      { coordinates := coordinate_data
        transform_applied := true
        centering_applied := false
        original_centroid := none
        lesion_count := coordinate_data.length
        normalized := true }
  | _, _ => lesionOriginalResponse lesion_data zooms

/-- x components of a centroid-translated list. -/
lemma pxs_map_vsub (L : List Q3) (c : Q3) :
    pxs (L.map fun p => vsub p c) = (pxs L).map (fun x => x - c.1) := by
  simp only [pxs, List.map_map]
  rfl

/-- y components of a centroid-translated list. -/
lemma pys_map_vsub (L : List Q3) (c : Q3) :
    pys (L.map fun p => vsub p c) = (pys L).map (fun x => x - c.2.1) := by
  simp only [pys, List.map_map]
  rfl

/-- z components of a centroid-translated list. -/
lemma pzs_map_vsub (L : List Q3) (c : Q3) :
    pzs (L.map fun p => vsub p c) = (pzs L).map (fun x => x - c.2.2) := by
  simp only [pzs, List.map_map]
  rfl

/-- `meanQ` commutes with translating every entry. -/
lemma meanQ_map_sub (a : ℚ) (l : List ℚ) (h : l ≠ []) :
    meanQ (l.map (fun x => x - a)) = meanQ l - a := by
  have hh := meanQ_map_scale_sub 1 a l h
  simpa using hh

/-- C10 counterexample: for a companion volume with no positive voxel,
the untransformed coordinate response carries no centering flag and an
empty raw coordinate list, so the claim does not hold for every
companion volume. -/
theorem lesion_centering_counterexample :
    (handle_lesion_coordinates none false [(((0 : ℚ), (0 : ℚ), (0 : ℚ)), (0 : ℚ))]
        (1, 1, 1)).centering_applied = false
    ∧ (handle_lesion_coordinates none false [(((0 : ℚ), (0 : ℚ), (0 : ℚ)), (0 : ℚ))]
        (1, 1, 1)).coordinates = []
    ∧ (handle_lesion_coordinates none false [(((0 : ℚ), (0 : ℚ), (0 : ℚ)), (0 : ℚ))]
        (1, 1, 1)).original_centroid = none := by
  have hidx : lesionIndicesOf [(((0 : ℚ), (0 : ℚ), (0 : ℚ)), (0 : ℚ))] = [] := by
    norm_num [lesionIndicesOf]
  have hres : handle_lesion_coordinates none false [(((0 : ℚ), (0 : ℚ), (0 : ℚ)), (0 : ℚ))]
      (1, 1, 1) = lesionOriginalResponse [(((0 : ℚ), (0 : ℚ), (0 : ℚ)), (0 : ℚ))] (1, 1, 1) :=
    rfl
  rw [hres]
  unfold lesionOriginalResponse
  rw [if_pos hidx]
  exact ⟨rfl, rfl, rfl⟩

/-- C10 amended: when an untransformed companion volume with at least
one positive voxel has its coordinates requested, the returned set is
not the raw physical-mm point set but that set translated by its own
centroid: the response has `centering_applied = true`, reports the
original centroid, returns exactly the centered points, and their
arithmetic mean is `(0, 0, 0)`; for a companion with no positive voxel
the response is the empty set without the centering flag. -/
theorem lesion_centering_amended (lesion_data : LesionVolume) (zooms : Q3)
    (h : lesionIndicesOf lesion_data ≠ []) :
    (handle_lesion_coordinates none false lesion_data zooms).centering_applied = true
    ∧ (handle_lesion_coordinates none false lesion_data zooms).transform_applied = false
    ∧ (handle_lesion_coordinates none false lesion_data zooms).original_centroid =
        some (centroidOf ((lesionIndicesOf lesion_data).map fun i => vmul i zooms))
    ∧ (handle_lesion_coordinates none false lesion_data zooms).coordinates =
        ((lesionIndicesOf lesion_data).map fun i => vmul i zooms).map
          (fun p => vsub p (centroidOf ((lesionIndicesOf lesion_data).map fun i => vmul i zooms)))
    ∧ centroidOf (handle_lesion_coordinates none false lesion_data zooms).coordinates =
        (0, 0, 0) := by
  have hres : handle_lesion_coordinates none false lesion_data zooms =
      lesionOriginalResponse lesion_data zooms := rfl
  rw [hres]
  unfold lesionOriginalResponse
  rw [if_neg h]
  have hLne : ((lesionIndicesOf lesion_data).map fun i => vmul i zooms) ≠ [] := by
    simpa using h
  have hxne : pxs ((lesionIndicesOf lesion_data).map fun i => vmul i zooms) ≠ [] := by
    simpa [pxs] using hLne
  have hyne : pys ((lesionIndicesOf lesion_data).map fun i => vmul i zooms) ≠ [] := by
    simpa [pys] using hLne
  have hzne : pzs ((lesionIndicesOf lesion_data).map fun i => vmul i zooms) ≠ [] := by
    simpa [pzs] using hLne
  refine ⟨rfl, rfl, rfl, rfl, ?_⟩
  refine Prod.ext ?_ (Prod.ext ?_ ?_)
  · show meanQ (pxs (((lesionIndicesOf lesion_data).map fun i => vmul i zooms).map
      (fun p => vsub p (centroidOf ((lesionIndicesOf lesion_data).map fun i => vmul i zooms))))) = 0
    rw [pxs_map_vsub, meanQ_map_sub _ _ hxne]
    exact sub_self _
  · show meanQ (pys (((lesionIndicesOf lesion_data).map fun i => vmul i zooms).map
      (fun p => vsub p (centroidOf ((lesionIndicesOf lesion_data).map fun i => vmul i zooms))))) = 0
    rw [pys_map_vsub, meanQ_map_sub _ _ hyne]
    exact sub_self _
  · show meanQ (pzs (((lesionIndicesOf lesion_data).map fun i => vmul i zooms).map
      (fun p => vsub p (centroidOf ((lesionIndicesOf lesion_data).map fun i => vmul i zooms))))) = 0
    rw [pzs_map_vsub, meanQ_map_sub _ _ hzne]
    exact sub_self _

/-- Witness for `lesion_centering_amended`: a companion volume with two
positive voxels at indices `(0,0,0)` and `(2,0,0)`. -/
theorem lesion_centering_amended_witness :
    (handle_lesion_coordinates none false
        [(((0 : ℚ), (0 : ℚ), (0 : ℚ)), (1 : ℚ)), (((2 : ℚ), (0 : ℚ), (0 : ℚ)), (3 : ℚ))]
        (1, 1, 1)).centering_applied = true
    ∧ (handle_lesion_coordinates none false
        [(((0 : ℚ), (0 : ℚ), (0 : ℚ)), (1 : ℚ)), (((2 : ℚ), (0 : ℚ), (0 : ℚ)), (3 : ℚ))]
        (1, 1, 1)).transform_applied = false
    ∧ (handle_lesion_coordinates none false
        [(((0 : ℚ), (0 : ℚ), (0 : ℚ)), (1 : ℚ)), (((2 : ℚ), (0 : ℚ), (0 : ℚ)), (3 : ℚ))]
        (1, 1, 1)).original_centroid =
        some (centroidOf ((lesionIndicesOf
          [(((0 : ℚ), (0 : ℚ), (0 : ℚ)), (1 : ℚ)), (((2 : ℚ), (0 : ℚ), (0 : ℚ)), (3 : ℚ))]).map
            fun i => vmul i (1, 1, 1)))
    ∧ (handle_lesion_coordinates none false
        [(((0 : ℚ), (0 : ℚ), (0 : ℚ)), (1 : ℚ)), (((2 : ℚ), (0 : ℚ), (0 : ℚ)), (3 : ℚ))]
        (1, 1, 1)).coordinates =
        ((lesionIndicesOf
          [(((0 : ℚ), (0 : ℚ), (0 : ℚ)), (1 : ℚ)), (((2 : ℚ), (0 : ℚ), (0 : ℚ)), (3 : ℚ))]).map
            fun i => vmul i (1, 1, 1)).map
          (fun p => vsub p (centroidOf ((lesionIndicesOf
            [(((0 : ℚ), (0 : ℚ), (0 : ℚ)), (1 : ℚ)), (((2 : ℚ), (0 : ℚ), (0 : ℚ)), (3 : ℚ))]).map
              fun i => vmul i (1, 1, 1))))
    ∧ centroidOf (handle_lesion_coordinates none false
        [(((0 : ℚ), (0 : ℚ), (0 : ℚ)), (1 : ℚ)), (((2 : ℚ), (0 : ℚ), (0 : ℚ)), (3 : ℚ))]
        (1, 1, 1)).coordinates = (0, 0, 0) :=
  lesion_centering_amended
    [(((0 : ℚ), (0 : ℚ), (0 : ℚ)), (1 : ℚ)), (((2 : ℚ), (0 : ℚ), (0 : ℚ)), (3 : ℚ))]
    (1, 1, 1) (by norm_num [lesionIndicesOf]; simp)
